import Mathlib

/-!
Verification development for the Polymarket range-grid bot (`poly.py`).

Prices, sizes and USD values are modelled as exact rationals (`ℚ`): the
source performs its arithmetic on Python numbers and converts through
`decimal.Decimal` for rounding, and all documented examples are stated in
exact decimal arithmetic.  Python's built-in `round` (round-half-to-even)
and `Decimal.quantize(..., ROUND_HALF_UP)` (round-half-away-from-zero) are
modelled exactly as integer-valued rounding functions on `ℚ`.

The bot state carried across operations (`active_orders`, `position_yes`,
`position_no`, `total_volume`) is a `BotState`; the local order index is an
association list keyed by exchange order id, mirroring the Python `dict`.
-/

namespace PolyGrid

/-- Order side, mirroring the `BUY`/`SELL` constants used by `poly.py`. -/
inductive Side
  | Buy
  | Sell
deriving DecidableEq

/-- Python's built-in `round` to an integer: round-half-to-even. -/
def roundHalfEven (q : ℚ) : ℤ :=
  if q < (⌊q⌋ : ℚ) + 1/2 then ⌊q⌋
  else if ((⌊q⌋ : ℚ) + 1/2) < q then ⌊q⌋ + 1
  else if ⌊q⌋ % 2 = 0 then ⌊q⌋ else ⌊q⌋ + 1

/-- Model of decimal.ROUND_HALF_UP: round to the nearest integer, ties away from zero. -/
def roundHalfUp (q : ℚ) : ℤ :=
  if 0 ≤ q then ⌊q + 1/2⌋ else -⌊-q + 1/2⌋

/-- Model of Decimal.quantize with exponent `-precision` and ROUND_HALF_UP:
keep `n` decimal digits, rounding ties away from zero. -/
def quantize (x : ℚ) (n : ℕ) : ℚ :=
  (roundHalfUp (x * 10 ^ n) : ℚ) / 10 ^ n

/-- The function round_price(price, precision, grid_spacing) of `poly.py`:
`rounded = round(price / grid_spacing) * grid_spacing`, then quantize the
result to `precision` decimal digits with half-up rounding. -/
def round_price (price : ℚ) (precision : ℕ) (grid_spacing : ℚ) : ℚ :=
  let rounded := (roundHalfEven (price / grid_spacing) : ℚ) * grid_spacing
  quantize rounded precision

/-- Python's `round(x, 2)` used for order sizes: half-to-even at two decimals. -/
def pyRound2 (q : ℚ) : ℚ :=
  (roundHalfEven (q * 100) : ℚ) / 100

/-- The bot's configuration parameters (`PolymarketGridBot.__init__`). -/
structure Config where
  grid_levels : ℕ
  grid_spacing : ℚ
  order_size_usd : ℚ
  max_position_usd : ℚ
  min_order_size : ℚ
  max_order_size : ℚ
  range_min : ℚ
  range_max : ℚ
  price_precision : ℕ
deriving DecidableEq

/-- One tracked entry of `self.active_orders` (the `timestamp` field is
never read by the logic under verification and is omitted). -/
structure TrackedOrder where
  side : Side
  price : ℚ
  size : ℚ
deriving DecidableEq

/-- The mutable bot state: local order index plus position/volume tracking. -/
structure BotState where
  active_orders : List (String × TrackedOrder)
  position_yes : ℚ
  position_no : ℚ
  total_volume : ℚ
deriving DecidableEq

/-- One entry of the target ladder returned by `generate_range_grid_orders`. -/
structure GridLevel where
  side : Side
  price : ℚ
  size : ℚ
  level : ℤ
deriving DecidableEq

/-- The fill record appended to `filled_orders` in `update_active_orders`. -/
structure FillEvent where
  side : Side
  price : ℚ
  size : ℚ
  value : ℚ
deriving DecidableEq

/-- Method calculate_position_value: current position value in USD. -/
def calculate_position_value (st : BotState) (mid : ℚ) : ℚ :=
  st.position_yes * mid

/-- Method can_place_order: position-limit check before placing an order. -/
def can_place_order (cfg : Config) (st : BotState) (side : Side) (mid : ℚ) : Bool :=
  match side with
  | Side.Buy =>
      if cfg.max_position_usd ≤ calculate_position_value st mid then false else true
  | Side.Sell =>
      if st.position_yes ≤ 0 then false
      else if calculate_position_value st mid ≤ -cfg.max_position_usd then false
      else true

/-- Method calculate_order_size: the flat per-order USD size, suppressed to `0`
once `|position value| ≥ max_position_usd`. -/
def calculate_order_size (cfg : Config) (st : BotState) (mid : ℚ) : ℚ :=
  if cfg.max_position_usd ≤ |calculate_position_value st mid| then 0
  else cfg.order_size_usd

/-- The BUY-side loop of `generate_range_grid_orders`: walks the index list
(Python `range(grid_levels)`), threading the `placed_prices` set; returns
the emitted orders together with the final `placed_prices`.  A failed
`can_place_order` check is a `break` (no further rungs), after the candidate
price has already been added to `placed_prices`, exactly as in the source. -/
def buyOrders (cfg : Config) (st : BotState) (mid size_usd base : ℚ) :
    List ℕ → List ℚ → List GridLevel × List ℚ
  | [], placed => ([], placed)
  | i :: is, placed =>
    let raw_price := base - (i : ℚ) * cfg.grid_spacing
    let price := round_price raw_price cfg.price_precision cfg.grid_spacing
    if price < cfg.range_min ∨ mid ≤ price then
      buyOrders cfg st mid size_usd base is placed
    else if price < 1/100 then
      buyOrders cfg st mid size_usd base is placed
    else if price ∈ placed then
      buyOrders cfg st mid size_usd base is placed
    else
      let placed' := price :: placed
      if ¬ can_place_order cfg st Side.Buy mid then ([], placed')
      else
        let size := size_usd / price
        if size < cfg.min_order_size then buyOrders cfg st mid size_usd base is placed'
        else
          let size' := if cfg.max_order_size < size then cfg.max_order_size else size
          (⟨Side.Buy, price, pyRound2 size', -(i : ℤ)⟩ ::
              (buyOrders cfg st mid size_usd base is placed').1,
            (buyOrders cfg st mid size_usd base is placed').2)

/-- The SELL-side loop of `generate_range_grid_orders`, symmetric to
`buyOrders`: rungs walk upward from `base`, bounded by `range_max` and
`0.99`, broken once `can_place_order SELL` fails. -/
def sellOrders (cfg : Config) (st : BotState) (mid size_usd base : ℚ) :
    List ℕ → List ℚ → List GridLevel × List ℚ
  | [], placed => ([], placed)
  | i :: is, placed =>
    let raw_price := base + (i : ℚ) * cfg.grid_spacing
    let price := round_price raw_price cfg.price_precision cfg.grid_spacing
    if cfg.range_max < price ∨ price ≤ mid then
      sellOrders cfg st mid size_usd base is placed
    else if 99/100 < price then
      sellOrders cfg st mid size_usd base is placed
    else if price ∈ placed then
      sellOrders cfg st mid size_usd base is placed
    else
      let placed' := price :: placed
      if ¬ can_place_order cfg st Side.Sell mid then ([], placed')
      else
        let size := size_usd / price
        if size < cfg.min_order_size then sellOrders cfg st mid size_usd base is placed'
        else
          let size' := if cfg.max_order_size < size then cfg.max_order_size else size
          (⟨Side.Sell, price, pyRound2 size', (i : ℤ)⟩ ::
              (sellOrders cfg st mid size_usd base is placed').1,
            (sellOrders cfg st mid size_usd base is placed').2)

/-- Method generate_range_grid_orders: the full target ladder.  The
BUY base is the grid line at or just below `mid`, the SELL base the grid
line strictly above `mid`; both loops share one `placed_prices` set. -/
def generate_range_grid_orders (cfg : Config) (st : BotState) (mid : ℚ) : List GridLevel :=
  let size_usd := calculate_order_size cfg st mid
  if size_usd = 0 then []
  else
    let base0 := round_price mid cfg.price_precision cfg.grid_spacing
    let baseB := if mid ≤ base0 then base0 - cfg.grid_spacing else base0
    let bres := buyOrders cfg st mid size_usd baseB (List.range cfg.grid_levels) []
    let base1 := round_price mid cfg.price_precision cfg.grid_spacing
    let baseS := if base1 ≤ mid then base1 + cfg.grid_spacing else base1
    let sres := sellOrders cfg st mid size_usd baseS (List.range cfg.grid_levels) bres.2
    bres.1 ++ sres.1

/-- The fill record built for a disappeared order in `update_active_orders`
(`order_value = order['size'] * order['price']`). -/
def mkFill (o : TrackedOrder) : FillEvent :=
  ⟨o.side, o.price, o.size, o.size * o.price⟩

/-- The reconciliation loop of `update_active_orders`: iterate over the
snapshot `tracked_ids = list(self.active_orders.keys())`; every id no
longer reported open is treated as filled — a fill event is recorded, the
position and volume are updated, and the entry is deleted from the live
index. -/
def reconcileGo (openIds : List String) :
    List (String × TrackedOrder) → BotState → List FillEvent × BotState
  | [], st => ([], st)
  | (oid, o) :: rest, st =>
    if oid ∈ openIds then reconcileGo openIds rest st
    else
      let value := o.size * o.price
      let st' : BotState :=
        { st with
          position_yes :=
            match o.side with
            | Side.Buy => st.position_yes + o.size
            | Side.Sell => st.position_yes - o.size
          total_volume := st.total_volume + value
          active_orders := st.active_orders.filter (fun p => decide (p.1 ≠ oid)) }
      (⟨o.side, o.price, o.size, value⟩ :: (reconcileGo openIds rest st').1,
        (reconcileGo openIds rest st').2)

/-- Method update_active_orders: sync the local order index against the
exchange-reported open-order ids and return the detected fills. -/
def update_active_orders (st : BotState) (openIds : List String) :
    List FillEvent × BotState :=
  reconcileGo openIds st.active_orders st

/-- Method get_current_positions: returns the internally tracked `(YES, NO)`
positions; the source consults no external API here. -/
def get_current_positions (st : BotState) : ℚ × ℚ :=
  (st.position_yes, st.position_no)

/-- The position-refresh step of `run_cycle`: `api_position, _ =
self.get_current_positions()` followed by `self.position_yes =
api_position` (the `is not None` guard always passes, as the first
component is a number, never `None`). -/
def run_cycle_position_refresh (st : BotState) : BotState :=
  let api_position := (get_current_positions st).1
  { st with position_yes := api_position }

/-- The place_order success path: the new order is inserted into
`self.active_orders` under its exchange-assigned id. -/
def place_order_track (st : BotState) (oid : String) (o : GridLevel) : BotState :=
  { st with active_orders := st.active_orders ++ [(oid, ⟨o.side, o.price, o.size⟩)] }

/-- Method cancel_order: the entry is deleted from the local index. -/
def cancel_order_track (st : BotState) (oid : String) : BotState :=
  { st with active_orders := st.active_orders.filter (fun p => decide (p.1 ≠ oid)) }

/-- One state-changing operation of the bot, at the granularity named by the
spec (order placement, cancellation, reconcile).  A placement stores an
order drawn from the bot's own target ladder for some observed mid-price
under a fresh exchange id; a reconcile applies `update_active_orders`
against an arbitrary exchange-reported open-id list; `cancelAll` is the
shutdown path `cancel_all_orders` which clears the tracking index. -/
inductive Step (cfg : Config) : BotState → BotState → Prop
  | place (st : BotState) (mid : ℚ) (o : GridLevel) (oid : String)
      (ho : o ∈ generate_range_grid_orders cfg st mid)
      (hfresh : oid ∉ st.active_orders.map Prod.fst) :
      Step cfg st (place_order_track st oid o)
  | reconcile (st : BotState) (openIds : List String) :
      Step cfg st (update_active_orders st openIds).2
  | cancel (st : BotState) (oid : String) :
      Step cfg st (cancel_order_track st oid)
  | cancelAll (st : BotState) :
      Step cfg st { st with active_orders := [] }

/-- The configuration of the spec's worked example (§8): three levels per
side, spacing `0.02`, range `[0.30, 0.70]`, with the source's default
order sizing (`$10` per order, `$100` cap, sizes in `[0.1, 10000]`,
precision 3). -/
def cfgEx : Config :=
  ⟨3, 1/50, 10, 100, 1/10, 10000, 3/10, 7/10, 3⟩

/-! ### Rounding lemmas -/

lemma roundHalfEven_intCast (z : ℤ) : roundHalfEven (z : ℚ) = z := by
  unfold roundHalfEven
  rw [Int.floor_intCast]
  rw [if_pos]
  norm_num

lemma roundHalfUp_intCast (z : ℤ) : roundHalfUp (z : ℚ) = z := by
  unfold roundHalfUp
  split_ifs with h
  · rw [Int.floor_int_add]
    norm_num
  · rw [show -(z : ℚ) = ((-z : ℤ) : ℚ) by push_cast; ring, Int.floor_int_add]
    norm_num

lemma quantize_int (x : ℚ) (n : ℕ) (z : ℤ) (h : x * 10 ^ n = (z : ℚ)) :
    quantize x n = x := by
  have h10 : ((10 : ℚ)) ^ n ≠ 0 := by positivity
  unfold quantize
  rw [h, roundHalfUp_intCast, ← h, mul_div_assoc, div_self h10, mul_one]

/-- C8 (rounding idempotence).  For a positive spacing `s` representable
at `n` decimal digits (the configuration validation of `poly.py` requires
`price_precision` to resolve at least as many decimals as `grid_spacing`),
`round_price` is idempotent: re-rounding an already rounded price is the
identity. -/
theorem round_price_idempotent (p s : ℚ) (n : ℕ) (hs : 0 < s)
    (hrep : ∃ m : ℤ, s = (m : ℚ) / 10 ^ n) :
    round_price (round_price p n s) n s = round_price p n s := by
  obtain ⟨m, hm⟩ := hrep
  have h10 : ((10 : ℚ)) ^ n ≠ 0 := by positivity
  have hsne : s ≠ 0 := ne_of_gt hs
  have key : ∀ k : ℤ, quantize ((k : ℚ) * s) n = (k : ℚ) * s := by
    intro k
    refine quantize_int _ _ (k * m) ?_
    rw [hm]
    push_cast
    field_simp
  have h1 : round_price p n s = ((roundHalfEven (p / s) : ℚ)) * s := by
    unfold round_price
    exact key _
  rw [h1]
  unfold round_price
  rw [mul_div_assoc, div_self hsne, mul_one, roundHalfEven_intCast]
  exact key _

/-- Witness for C8 at the spec's example input `p = 0.455`, `s = 0.01`, `n = 3`. -/
theorem round_price_idempotent_witness :
    (0 : ℚ) < 1/100 ∧
      round_price (round_price (455/1000) 3 (1/100)) 3 (1/100) =
        round_price (455/1000) 3 (1/100) :=
  ⟨by norm_num,
    round_price_idempotent (455/1000) (1/100) 3 (by norm_num)
      ⟨10, by norm_num⟩⟩

/-! ### Position suppression (C3) -/

/-- C3 (position suppression).  Once `|heldSize * midPrice| ≥
maxPositionUsd`, the per-rung order size collapses to `0` and the generated
ladder is empty. -/
theorem position_suppression (cfg : Config) (st : BotState) (mid : ℚ)
    (h : cfg.max_position_usd ≤ |st.position_yes * mid|) :
    calculate_order_size cfg st mid = 0 ∧
      generate_range_grid_orders cfg st mid = [] := by
  have h0 : calculate_order_size cfg st mid = 0 := by
    unfold calculate_order_size calculate_position_value
    rw [if_pos h]
  refine ⟨h0, ?_⟩
  unfold generate_range_grid_orders
  rw [h0]
  rw [if_pos rfl]

/-- Witness for C3: held size `250` at mid `0.5` values the position at
`$125 ≥ $100`, so the order size is `0` and the ladder empty. -/
theorem position_suppression_witness :
    cfgEx.max_position_usd ≤ |(250 : ℚ) * (1/2)| ∧
      (calculate_order_size cfgEx ⟨[], 250, 0, 0⟩ (1/2) = 0 ∧
        generate_range_grid_orders cfgEx ⟨[], 250, 0, 0⟩ (1/2) = []) :=
  ⟨by rw [abs_of_nonneg (by norm_num)]; norm_num [cfgEx],
    position_suppression cfgEx ⟨[], 250, 0, 0⟩ (1/2)
      (by rw [abs_of_nonneg (by norm_num)]; norm_num [cfgEx])⟩

/-! ### Reconciliation lemmas -/

lemma reconcileGo_fst (openIds : List String) :
    ∀ (l : List (String × TrackedOrder)) (st : BotState),
      (reconcileGo openIds l st).1 =
        (l.filter fun p => decide (p.1 ∉ openIds)).map (fun p => mkFill p.2) := by
  intro l
  induction l with
  | nil => intro st; simp [reconcileGo]
  | cons hd tl ih =>
    intro st
    obtain ⟨oid, o⟩ := hd
    by_cases h : oid ∈ openIds
    · simp [reconcileGo, h, ih]
    · simp [reconcileGo, h, ih, mkFill]

lemma reconcileGo_position (openIds : List String) :
    ∀ (l : List (String × TrackedOrder)) (st : BotState),
      (reconcileGo openIds l st).2.position_yes =
        st.position_yes +
          ((l.filter fun p => decide (p.1 ∉ openIds)).map
            (fun p => match p.2.side with
              | Side.Buy => p.2.size
              | Side.Sell => -p.2.size)).sum := by
  intro l
  induction l with
  | nil => intro st; simp [reconcileGo]
  | cons hd tl ih =>
    intro st
    obtain ⟨oid, o⟩ := hd
    by_cases h : oid ∈ openIds
    · simp [reconcileGo, h, ih]
    · cases hside : o.side <;>
        simp [reconcileGo, h, ih, hside] <;> ring

lemma reconcileGo_volume (openIds : List String) :
    ∀ (l : List (String × TrackedOrder)) (st : BotState),
      (reconcileGo openIds l st).2.total_volume =
        st.total_volume +
          ((l.filter fun p => decide (p.1 ∉ openIds)).map
            (fun p => p.2.size * p.2.price)).sum := by
  intro l
  induction l with
  | nil => intro st; simp [reconcileGo]
  | cons hd tl ih =>
    intro st
    obtain ⟨oid, o⟩ := hd
    by_cases h : oid ∈ openIds
    · simp [reconcileGo, h, ih]
    · simp [reconcileGo, h, ih]
      ring

lemma reconcileGo_active_mem (openIds : List String) :
    ∀ (l : List (String × TrackedOrder)) (st : BotState) (p : String × TrackedOrder),
      p ∈ (reconcileGo openIds l st).2.active_orders ↔
        (p ∈ st.active_orders ∧ (p.1 ∉ l.map Prod.fst ∨ p.1 ∈ openIds)) := by
  intro l
  induction l with
  | nil => intro st p; simp [reconcileGo]
  | cons hd tl ih =>
    intro st p
    obtain ⟨oid, o⟩ := hd
    by_cases h : oid ∈ openIds
    · rw [show reconcileGo openIds ((oid, o) :: tl) st = reconcileGo openIds tl st by
        simp [reconcileGo, h]]
      rw [ih]
      constructor
      · rintro ⟨h1, h2⟩
        refine ⟨h1, ?_⟩
        by_cases hp : p.1 = oid
        · exact Or.inr (hp ▸ h)
        · rcases h2 with h2 | h2
          · exact Or.inl (by simp [hp, h2])
          · exact Or.inr h2
      · rintro ⟨h1, h2⟩
        refine ⟨h1, ?_⟩
        rcases h2 with h2 | h2
        · exact Or.inl (fun hc => h2 (by simp [hc]))
        · exact Or.inr h2
    · have hunf : (reconcileGo openIds ((oid, o) :: tl) st).2.active_orders =
          (reconcileGo openIds tl
            { st with
              position_yes :=
                match o.side with
                | Side.Buy => st.position_yes + o.size
                | Side.Sell => st.position_yes - o.size
              total_volume := st.total_volume + o.size * o.price
              active_orders :=
                st.active_orders.filter (fun q => decide (q.1 ≠ oid)) }).2.active_orders := by
        simp [reconcileGo, h]
      rw [hunf, ih]
      simp only [List.mem_filter, decide_eq_true_eq, List.map_cons, List.mem_cons]
      constructor
      · rintro ⟨⟨h1, hne⟩, h2⟩
        refine ⟨h1, ?_⟩
        rcases h2 with h2 | h2
        · exact Or.inl (by
            push_neg
            exact ⟨hne, by simpa using h2⟩)
        · exact Or.inr h2
      · rintro ⟨h1, h2⟩
        rcases h2 with h2 | h2
        · push_neg at h2
          exact ⟨⟨h1, h2.1⟩, Or.inl h2.2⟩
        · refine ⟨⟨h1, ?_⟩, Or.inr h2⟩
          intro hc
          exact h (hc ▸ h2)

/-! ### Reconciliation completeness (C1) -/

/-- Counterexample to C1 as stated: reconciling an empty local index
against an exchange report containing the open order id `"a"` does *not*
make the tracked-id set equal to the reported open-id set —
`update_active_orders` only removes entries, it never adopts unknown
exchange-reported orders. -/
theorem reconcile_completeness_cex :
    ¬ (∀ i : String,
        i ∈ ((update_active_orders ⟨[], 0, 0, 0⟩ ["a"]).2.active_orders.map Prod.fst) ↔
          i ∈ ["a"]) := by
  intro h
  have := (h "a").2 (by simp)
  simp [update_active_orders, reconcileGo] at this

/-- C1 (amended).  After `update_active_orders`, an id is tracked iff it
was tracked before *and* the exchange still reports it open: the new
tracked-id set is the intersection of the old tracked-id set with the
reported open-id set.  Exchange-reported orders that were not already
tracked are never adopted. -/
theorem reconcile_tracked_ids (st : BotState) (openIds : List String) (i : String) :
    i ∈ ((update_active_orders st openIds).2.active_orders.map Prod.fst) ↔
      (i ∈ st.active_orders.map Prod.fst ∧ i ∈ openIds) := by
  unfold update_active_orders
  constructor
  · intro hi
    obtain ⟨p, hp, rfl⟩ := List.mem_map.1 hi
    obtain ⟨hpa, hcase⟩ :=
      (reconcileGo_active_mem openIds st.active_orders st p).1 hp
    refine ⟨List.mem_map_of_mem _ hpa, ?_⟩
    rcases hcase with hno | hyes
    · exact absurd (List.mem_map_of_mem Prod.fst hpa) hno
    · exact hyes
  · rintro ⟨hi, hop⟩
    obtain ⟨p, hp, rfl⟩ := List.mem_map.1 hi
    exact List.mem_map_of_mem _
      ((reconcileGo_active_mem openIds st.active_orders st p).2 ⟨hp, Or.inr hop⟩)

/-! ### Fill detection (C2) -/

/-- C2 (fill sign correctness).  `update_active_orders` emits exactly one
`FillEvent` per tracked order absent from the exchange-reported open-id
set, carrying that order's side, price, size and `size * price` value; the
position moves up by the size of each disappeared Buy and down by the size
of each disappeared Sell; the total volume grows by `size * price` of every
disappeared order; and an entry survives in the local index iff its id is
still reported open. -/
theorem fill_event_characterization (st : BotState) (openIds : List String) :
    (update_active_orders st openIds).1 =
        (st.active_orders.filter fun p => decide (p.1 ∉ openIds)).map
          (fun p => mkFill p.2) ∧
      (update_active_orders st openIds).2.position_yes =
        st.position_yes +
          ((st.active_orders.filter fun p => decide (p.1 ∉ openIds)).map
            (fun p => match p.2.side with
              | Side.Buy => p.2.size
              | Side.Sell => -p.2.size)).sum ∧
      (update_active_orders st openIds).2.total_volume =
        st.total_volume +
          ((st.active_orders.filter fun p => decide (p.1 ∉ openIds)).map
            (fun p => p.2.size * p.2.price)).sum ∧
      ∀ p : String × TrackedOrder,
        p ∈ (update_active_orders st openIds).2.active_orders ↔
          (p ∈ st.active_orders ∧ p.1 ∈ openIds) := by
  refine ⟨reconcileGo_fst openIds st.active_orders st,
    reconcileGo_position openIds st.active_orders st,
    reconcileGo_volume openIds st.active_orders st, ?_⟩
  intro p
  rw [update_active_orders, reconcileGo_active_mem]
  constructor
  · rintro ⟨h1, h2⟩
    refine ⟨h1, ?_⟩
    rcases h2 with h2 | h2
    · exact absurd (List.mem_map_of_mem Prod.fst h1) h2
    · exact h2
  · rintro ⟨h1, h2⟩
    exact ⟨h1, Or.inr h2⟩

/-! ### Grid-loop lemmas -/

lemma ite_clamp_eq_min (s m : ℚ) : (if m < s then m else s) = min s m := by
  rcases le_or_lt s m with h | h
  · rw [if_neg (not_lt.2 h), min_eq_left h]
  · rw [if_pos h, min_eq_right h.le]

lemma buyOrders_mem_props (cfg : Config) (st : BotState) (mid u b : ℚ) :
    ∀ (is : List ℕ) (placed : List ℚ) (o : GridLevel),
      o ∈ (buyOrders cfg st mid u b is placed).1 →
      o.side = Side.Buy ∧ cfg.range_min ≤ o.price ∧ o.price < mid ∧
        cfg.min_order_size ≤ u / o.price ∧
        o.size = pyRound2 (min (u / o.price) cfg.max_order_size) ∧
        o.price ∉ placed := by
  intro is
  induction is with
  | nil => intro placed o ho; simp [buyOrders] at ho
  | cons i is ih =>
    intro placed o ho
    simp only [buyOrders] at ho
    split_ifs at ho with c1 c2 c3 c4 c5 c6
    all_goals try exact ih placed o ho
    all_goals try exact absurd ho (List.not_mem_nil o)
    all_goals try
      (obtain ⟨h1, h2, h3, h4, h5, h6⟩ := ih _ o ho
       exact ⟨h1, h2, h3, h4, h5, fun hc => h6 (List.mem_cons_of_mem _ hc)⟩)
    all_goals
      push_neg at c1
      rcases List.mem_cons.1 ho with rfl | htl
      case _ =>
        refine ⟨rfl, c1.1, c1.2, not_lt.1 c5, ?_, c3⟩
        first
          | rw [min_eq_right (le_of_lt c6)]
          | rw [min_eq_left (not_lt.1 c6)]
      case _ =>
        obtain ⟨h1, h2, h3, h4, h5, h6⟩ := ih _ o htl
        exact ⟨h1, h2, h3, h4, h5, fun hc => h6 (List.mem_cons_of_mem _ hc)⟩

lemma sellOrders_mem_props (cfg : Config) (st : BotState) (mid u b : ℚ) :
    ∀ (is : List ℕ) (placed : List ℚ) (o : GridLevel),
      o ∈ (sellOrders cfg st mid u b is placed).1 →
      o.side = Side.Sell ∧ mid < o.price ∧ o.price ≤ cfg.range_max ∧
        cfg.min_order_size ≤ u / o.price ∧
        o.size = pyRound2 (min (u / o.price) cfg.max_order_size) ∧
        o.price ∉ placed := by
  intro is
  induction is with
  | nil => intro placed o ho; simp [sellOrders] at ho
  | cons i is ih =>
    intro placed o ho
    simp only [sellOrders] at ho
    split_ifs at ho with c1 c2 c3 c4 c5 c6
    all_goals try exact ih placed o ho
    all_goals try exact absurd ho (List.not_mem_nil o)
    all_goals try
      (obtain ⟨h1, h2, h3, h4, h5, h6⟩ := ih _ o ho
       exact ⟨h1, h2, h3, h4, h5, fun hc => h6 (List.mem_cons_of_mem _ hc)⟩)
    all_goals
      push_neg at c1
      rcases List.mem_cons.1 ho with rfl | htl
      case _ =>
        refine ⟨rfl, c1.2, c1.1, not_lt.1 c5, ?_, c3⟩
        first
          | rw [min_eq_right (le_of_lt c6)]
          | rw [min_eq_left (not_lt.1 c6)]
      case _ =>
        obtain ⟨h1, h2, h3, h4, h5, h6⟩ := ih _ o htl
        exact ⟨h1, h2, h3, h4, h5, fun hc => h6 (List.mem_cons_of_mem _ hc)⟩

lemma buyOrders_placed (cfg : Config) (st : BotState) (mid u b : ℚ) :
    ∀ (is : List ℕ) (placed : List ℚ),
      (∀ q ∈ placed, q ∈ (buyOrders cfg st mid u b is placed).2) ∧
        (∀ o ∈ (buyOrders cfg st mid u b is placed).1,
          o.price ∈ (buyOrders cfg st mid u b is placed).2) := by
  intro is
  induction is with
  | nil =>
    intro placed
    exact ⟨fun q hq => hq, fun o ho => absurd ho (List.not_mem_nil o)⟩
  | cons i is ih =>
    intro placed
    constructor
    · intro q hq
      simp only [buyOrders]
      split_ifs with c1 c2 c3 c4 c5 c6
      all_goals try exact (ih placed).1 q hq
      all_goals try exact List.mem_cons_of_mem _ hq
      all_goals exact (ih _).1 q (List.mem_cons_of_mem _ hq)
    · intro o ho
      simp only [buyOrders] at ho ⊢
      split_ifs at ho ⊢ with c1 c2 c3 c4 c5 c6
      all_goals try exact (ih placed).2 o ho
      all_goals try exact absurd ho (List.not_mem_nil o)
      all_goals try exact (ih _).2 o ho
      all_goals
        rcases List.mem_cons.1 ho with rfl | htl
        case _ => exact (ih _).1 _ (List.mem_cons_self _ _)
        case _ => exact (ih _).2 o htl

lemma sellOrders_placed (cfg : Config) (st : BotState) (mid u b : ℚ) :
    ∀ (is : List ℕ) (placed : List ℚ),
      (∀ q ∈ placed, q ∈ (sellOrders cfg st mid u b is placed).2) ∧
        (∀ o ∈ (sellOrders cfg st mid u b is placed).1,
          o.price ∈ (sellOrders cfg st mid u b is placed).2) := by
  intro is
  induction is with
  | nil =>
    intro placed
    exact ⟨fun q hq => hq, fun o ho => absurd ho (List.not_mem_nil o)⟩
  | cons i is ih =>
    intro placed
    constructor
    · intro q hq
      simp only [sellOrders]
      split_ifs with c1 c2 c3 c4 c5 c6
      all_goals try exact (ih placed).1 q hq
      all_goals try exact List.mem_cons_of_mem _ hq
      all_goals exact (ih _).1 q (List.mem_cons_of_mem _ hq)
    · intro o ho
      simp only [sellOrders] at ho ⊢
      split_ifs at ho ⊢ with c1 c2 c3 c4 c5 c6
      all_goals try exact (ih placed).2 o ho
      all_goals try exact absurd ho (List.not_mem_nil o)
      all_goals try exact (ih _).2 o ho
      all_goals
        rcases List.mem_cons.1 ho with rfl | htl
        case _ => exact (ih _).1 _ (List.mem_cons_self _ _)
        case _ => exact (ih _).2 o htl

lemma buyOrders_nodup (cfg : Config) (st : BotState) (mid u b : ℚ) :
    ∀ (is : List ℕ) (placed : List ℚ),
      (((buyOrders cfg st mid u b is placed).1).map (fun o => o.price)).Nodup := by
  intro is
  induction is with
  | nil => intro placed; simp [buyOrders]
  | cons i is ih =>
    intro placed
    simp only [buyOrders]
    split_ifs with c1 c2 c3 c4 c5 c6
    all_goals try exact ih placed
    all_goals try exact List.nodup_nil
    all_goals try exact ih _
    all_goals
      refine List.Nodup.cons ?_ (ih _)
      intro hc
      obtain ⟨o, ho, hp⟩ := List.mem_map.1 hc
      exact (buyOrders_mem_props cfg st mid u b is _ o ho).2.2.2.2.2
        (by rw [hp]; exact List.mem_cons_self _ _)

lemma sellOrders_nodup (cfg : Config) (st : BotState) (mid u b : ℚ) :
    ∀ (is : List ℕ) (placed : List ℚ),
      (((sellOrders cfg st mid u b is placed).1).map (fun o => o.price)).Nodup := by
  intro is
  induction is with
  | nil => intro placed; simp [sellOrders]
  | cons i is ih =>
    intro placed
    simp only [sellOrders]
    split_ifs with c1 c2 c3 c4 c5 c6
    all_goals try exact ih placed
    all_goals try exact List.nodup_nil
    all_goals try exact ih _
    all_goals
      refine List.Nodup.cons ?_ (ih _)
      intro hc
      obtain ⟨o, ho, hp⟩ := List.mem_map.1 hc
      exact (sellOrders_mem_props cfg st mid u b is _ o ho).2.2.2.2.2
        (by rw [hp]; exact List.mem_cons_self _ _)

/-! ### Range containment (C4) -/

/-- C4 (range containment).  Every Buy level of the generated ladder has
its price in `[range_min, mid)` and every Sell level in `(mid, range_max]`,
for every configuration, bot state and mid-price. -/
theorem range_containment (cfg : Config) (st : BotState) (mid : ℚ) (o : GridLevel)
    (ho : o ∈ generate_range_grid_orders cfg st mid) :
    (o.side = Side.Buy → cfg.range_min ≤ o.price ∧ o.price < mid) ∧
      (o.side = Side.Sell → mid < o.price ∧ o.price ≤ cfg.range_max) := by
  simp only [generate_range_grid_orders] at ho
  split at ho
  · exact absurd ho (List.not_mem_nil o)
  · rcases List.mem_append.1 ho with hb | hs
    · obtain ⟨h1, h2, h3, -⟩ := buyOrders_mem_props _ _ _ _ _ _ _ _ hb
      refine ⟨fun _ => ⟨h2, h3⟩, fun hside => ?_⟩
      simp [h1] at hside
    · obtain ⟨h1, h2, h3, -⟩ := sellOrders_mem_props _ _ _ _ _ _ _ _ hs
      refine ⟨fun hside => ?_, fun _ => ⟨h2, h3⟩⟩
      simp [h1] at hside

/-! ### No-duplicate invariant (C5) -/

/-- C5 (no-duplicate invariant).  All prices of a generated ladder are
pairwise distinct, across both sides: the shared `placed_prices` set makes
the first (lower-index) rung at a rounded price win and later colliding
rungs be dropped. -/
theorem ladder_prices_nodup (cfg : Config) (st : BotState) (mid : ℚ) :
    ((generate_range_grid_orders cfg st mid).map (fun o => o.price)).Nodup := by
  simp only [generate_range_grid_orders]
  split
  · simp
  · rw [List.map_append]
    rw [List.nodup_append]
    refine ⟨buyOrders_nodup _ _ _ _ _ _ _, sellOrders_nodup _ _ _ _ _ _ _, ?_⟩
    intro a ha hb
    obtain ⟨ob, hob, rfl⟩ := List.mem_map.1 ha
    obtain ⟨os, hos, hpr⟩ := List.mem_map.1 hb
    have h1 : ob.price ∈
        (buyOrders cfg st mid (calculate_order_size cfg st mid)
          (if mid ≤ round_price mid cfg.price_precision cfg.grid_spacing then
            round_price mid cfg.price_precision cfg.grid_spacing - cfg.grid_spacing
          else round_price mid cfg.price_precision cfg.grid_spacing)
          (List.range cfg.grid_levels) []).2 :=
      (buyOrders_placed _ _ _ _ _ _ _).2 ob hob
    have h2 := (sellOrders_mem_props _ _ _ _ _ _ _ _ hos).2.2.2.2.2
    exact h2 (hpr ▸ h1)

/-! ### Concrete evaluations at the example configuration -/

lemma generate_cfgEx_zero (st : BotState) (h : st.position_yes = 0) :
    generate_range_grid_orders cfgEx st (1/2) =
      [⟨Side.Buy, 12/25, 2083/100, 0⟩, ⟨Side.Buy, 23/50, 1087/50, -1⟩,
       ⟨Side.Buy, 11/25, 2273/100, -2⟩] := by
  have hsize : calculate_order_size cfgEx st (1/2) = 10 := by
    rw [calculate_order_size, if_neg]
    · rfl
    · rw [calculate_position_value, h]
      norm_num [cfgEx]
  have hbuy : can_place_order cfgEx st Side.Buy (1/2) = true := by
    simp only [can_place_order]
    rw [if_neg]
    rw [calculate_position_value, h]
    norm_num [cfgEx]
  have hsell : can_place_order cfgEx st Side.Sell (1/2) = false := by
    simp only [can_place_order]
    rw [if_pos (le_of_eq h)]
  simp only [generate_range_grid_orders, hsize,
    show List.range cfgEx.grid_levels = [0, 1, 2] from rfl, buyOrders, sellOrders,
    hbuy, hsell]
  norm_num [round_price, quantize, roundHalfEven, roundHalfUp, pyRound2, cfgEx]

lemma generate_cfgEx_pos (st : BotState) (h1 : 0 < st.position_yes)
    (h2 : st.position_yes * (1/2) < 100) :
    generate_range_grid_orders cfgEx st (1/2) =
      [⟨Side.Buy, 12/25, 2083/100, 0⟩, ⟨Side.Buy, 23/50, 1087/50, -1⟩,
       ⟨Side.Buy, 11/25, 2273/100, -2⟩,
       ⟨Side.Sell, 13/25, 1923/100, 0⟩, ⟨Side.Sell, 27/50, 463/25, 1⟩,
       ⟨Side.Sell, 14/25, 893/50, 2⟩] := by
  have hpv : calculate_position_value st (1/2) < cfgEx.max_position_usd := by
    rw [calculate_position_value]
    exact h2
  have hsize : calculate_order_size cfgEx st (1/2) = 10 := by
    rw [calculate_order_size, if_neg]
    · rfl
    · rw [abs_of_nonneg (by rw [calculate_position_value]; exact mul_nonneg h1.le (by norm_num))]
      exact not_le.2 hpv
  have hbuy : can_place_order cfgEx st Side.Buy (1/2) = true := by
    simp only [can_place_order]
    rw [if_neg (not_le.2 hpv)]
  have hneg : -cfgEx.max_position_usd < calculate_position_value st (1/2) := by
    rw [calculate_position_value]
    have hp : (0:ℚ) < st.position_yes * (1/2) := mul_pos h1 (by norm_num)
    have : -cfgEx.max_position_usd < (0:ℚ) := by norm_num [cfgEx]
    linarith
  have hsell : can_place_order cfgEx st Side.Sell (1/2) = true := by
    simp only [can_place_order]
    rw [if_neg (not_le.2 h1), if_neg (not_le.2 hneg)]
  simp only [generate_range_grid_orders, hsize,
    show List.range cfgEx.grid_levels = [0, 1, 2] from rfl, buyOrders, sellOrders,
    hbuy, hsell]
  norm_num [round_price, quantize, roundHalfEven, roundHalfUp, pyRound2, cfgEx]

/-! ### Order sizing (C9) -/

/-- Counterexample to C9 as stated: at the spec's example configuration
(mid `0.50`, flat position), the ladder contains the Buy level at price
`0.48` whose stored size is `20.83` — the value `10 / 0.48 = 125/6 =
20.8333…` clamped to `[0.1, 10000]` is `125/6` itself, which differs from
the stored size, because the source stores `round(size, 2)`. -/
theorem order_size_cex :
    (⟨Side.Buy, 12/25, 2083/100, 0⟩ : GridLevel) ∈
        generate_range_grid_orders cfgEx ⟨[], 0, 0, 0⟩ (1/2) ∧
      ¬ ((2083/100 : ℚ) = max cfgEx.min_order_size
          (min ((10 : ℚ) / (12/25)) cfgEx.max_order_size)) := by
  constructor
  · rw [generate_cfgEx_zero _ rfl]
    simp
  · intro h
    rw [show min ((10 : ℚ) / (12/25)) cfgEx.max_order_size = 125/6 by
      rw [min_eq_left]
      · norm_num
      · norm_num [cfgEx]] at h
    rw [max_eq_right (by norm_num [cfgEx] : cfgEx.min_order_size ≤ (125/6 : ℚ))] at h
    norm_num at h

/-- C9 (amended).  Every emitted level's *pre-rounding* size
`order_size_usd / price` is at least `min_order_size` (smaller candidates
are dropped), and the stored size is that quotient clamped above to
`max_order_size` and then rounded to two decimals (Python `round(size, 2)`,
half-to-even) — the stored value itself may leave `[min_order_size,
max_order_size]` by up to half a hundredth. -/
theorem order_size_amended (cfg : Config) (st : BotState) (mid : ℚ) (o : GridLevel)
    (ho : o ∈ generate_range_grid_orders cfg st mid) :
    cfg.min_order_size ≤ cfg.order_size_usd / o.price ∧
      o.size = pyRound2 (min (cfg.order_size_usd / o.price) cfg.max_order_size) := by
  simp only [generate_range_grid_orders] at ho
  split at ho
  · exact absurd ho (List.not_mem_nil o)
  · rename_i hc
    have hu : calculate_order_size cfg st mid = cfg.order_size_usd := by
      by_cases hcond : cfg.max_position_usd ≤ |calculate_position_value st mid|
      · exact absurd (by rw [calculate_order_size, if_pos hcond]) hc
      · rw [calculate_order_size, if_neg hcond]
    rw [hu] at ho
    rcases List.mem_append.1 ho with hb | hs
    · obtain ⟨-, -, -, h4, h5, -⟩ := buyOrders_mem_props _ _ _ _ _ _ _ _ hb
      exact ⟨h4, h5⟩
    · obtain ⟨-, -, -, h4, h5, -⟩ := sellOrders_mem_props _ _ _ _ _ _ _ _ hs
      exact ⟨h4, h5⟩

/-- Witness for C4 at the example configuration: the Buy level at `0.48`
of the generated ladder lies in `[0.30, 0.50)`. -/
theorem range_containment_witness :
    ((⟨Side.Buy, 12/25, 2083/100, 0⟩ : GridLevel) ∈
        generate_range_grid_orders cfgEx ⟨[], 0, 0, 0⟩ (1/2)) ∧
      (cfgEx.range_min ≤ (12/25 : ℚ) ∧ (12/25 : ℚ) < 1/2) := by
  have hm : (⟨Side.Buy, 12/25, 2083/100, 0⟩ : GridLevel) ∈
      generate_range_grid_orders cfgEx ⟨[], 0, 0, 0⟩ (1/2) := by
    rw [generate_cfgEx_zero _ rfl]
    simp
  exact ⟨hm, (range_containment cfgEx ⟨[], 0, 0, 0⟩ (1/2) _ hm).1 rfl⟩

/-- Witness for the amended C9 at the Buy level `0.48`: the pre-rounding
size `10 / 0.48` clears the minimum and the stored size is its
two-decimal rounding. -/
theorem order_size_amended_witness :
    ((⟨Side.Buy, 12/25, 2083/100, 0⟩ : GridLevel) ∈
        generate_range_grid_orders cfgEx ⟨[], 0, 0, 0⟩ (1/2)) ∧
      (cfgEx.min_order_size ≤ cfgEx.order_size_usd / (12/25 : ℚ) ∧
        (2083/100 : ℚ) =
          pyRound2 (min (cfgEx.order_size_usd / (12/25 : ℚ)) cfgEx.max_order_size)) := by
  have hm : (⟨Side.Buy, 12/25, 2083/100, 0⟩ : GridLevel) ∈
      generate_range_grid_orders cfgEx ⟨[], 0, 0, 0⟩ (1/2) := by
    rw [generate_cfgEx_zero _ rfl]
    simp
  exact ⟨hm, order_size_amended cfgEx ⟨[], 0, 0, 0⟩ (1/2) _ hm⟩

/-! ### The worked example ladder (C6) -/

/-- C6 (example ladder).  At mid-price `0.50`, spacing `0.02`, three
levels per side and range `[0.30, 0.70]`, the generated ladder consists of
exactly the buy rungs `0.48, 0.46, 0.44` and the sell rungs
`0.52, 0.54, 0.56` (in generation order), for any held position that is
positive and below the position cap — a positive position is required
because the source suppresses the entire sell side when `position_yes ≤ 0`. -/
theorem example_ladder (p : ℚ) (h1 : 0 < p) (h2 : p * (1/2) < 100) :
    ((generate_range_grid_orders cfgEx ⟨[], p, 0, 0⟩ (1/2)).map fun o => (o.side, o.price)) =
      [(Side.Buy, 12/25), (Side.Buy, 23/50), (Side.Buy, 11/25),
       (Side.Sell, 13/25), (Side.Sell, 27/50), (Side.Sell, 14/25)] := by
  rw [generate_cfgEx_pos ⟨[], p, 0, 0⟩ h1 h2]
  rfl

/-- Witness for C6 at held position `1`. -/
theorem example_ladder_witness :
    (0 : ℚ) < 1 ∧ (1 : ℚ) * (1/2) < 100 ∧
      ((generate_range_grid_orders cfgEx ⟨[], 1, 0, 0⟩ (1/2)).map fun o => (o.side, o.price)) =
        [(Side.Buy, 12/25), (Side.Buy, 23/50), (Side.Buy, 11/25),
         (Side.Sell, 13/25), (Side.Sell, 27/50), (Side.Sell, 14/25)] :=
  ⟨by norm_num, by norm_num, example_ladder 1 (by norm_num) (by norm_num)⟩

/-! ### Non-negativity of the held position (C7) -/

/-- Counterexample to C7 as stated: a state with negative `position_yes`
is reachable from the initial state by operations of the bot.  The bot
sizes sell rungs as `order_size_usd / price` regardless of inventory, so
after one buy fill (`+20.83` shares) two successive sell fills of `19.23`
shares each drive the tracked position to `-17.63 < 0`. -/
theorem heldSize_nonneg_cex :
    Relation.ReflTransGen (Step cfgEx) ⟨[], 0, 0, 0⟩ ⟨[], -1763/100, 0, 37497/1250⟩ ∧
      (⟨[], -1763/100, 0, 37497/1250⟩ : BotState).position_yes < 0 := by
  have hb1 : (⟨Side.Buy, 12/25, 2083/100, 0⟩ : GridLevel) ∈
      generate_range_grid_orders cfgEx ⟨[], 0, 0, 0⟩ (1/2) := by
    rw [generate_cfgEx_zero _ rfl]
    simp
  have hs1 : (⟨Side.Sell, 13/25, 1923/100, 0⟩ : GridLevel) ∈
      generate_range_grid_orders cfgEx ⟨[], 2083/100, 0, 6249/625⟩ (1/2) := by
    rw [generate_cfgEx_pos _ (by norm_num) (by norm_num)]
    simp
  have hs2 : (⟨Side.Sell, 13/25, 1923/100, 0⟩ : GridLevel) ∈
      generate_range_grid_orders cfgEx ⟨[], 8/5, 0, 9999/500⟩ (1/2) := by
    rw [generate_cfgEx_pos _ (by norm_num) (by norm_num)]
    simp
  have h1 : Step cfgEx ⟨[], 0, 0, 0⟩ ⟨[("b1", ⟨Side.Buy, 12/25, 2083/100⟩)], 0, 0, 0⟩ :=
    Step.place ⟨[], 0, 0, 0⟩ (1/2) ⟨Side.Buy, 12/25, 2083/100, 0⟩ "b1" hb1 (by simp)
  have h2 : Step cfgEx ⟨[("b1", ⟨Side.Buy, 12/25, 2083/100⟩)], 0, 0, 0⟩
      ⟨[], 2083/100, 0, 6249/625⟩ := by
    have hr : Step cfgEx ⟨[("b1", ⟨Side.Buy, 12/25, 2083/100⟩)], 0, 0, 0⟩
        ((update_active_orders ⟨[("b1", ⟨Side.Buy, 12/25, 2083/100⟩)], 0, 0, 0⟩ []).2) :=
      Step.reconcile _ []
    have e : (update_active_orders ⟨[("b1", ⟨Side.Buy, 12/25, 2083/100⟩)], 0, 0, 0⟩
        ([] : List String)).2 = ⟨[], 2083/100, 0, 6249/625⟩ := by
      simp [update_active_orders, reconcileGo]
      norm_num
    exact e ▸ hr
  have h3 : Step cfgEx ⟨[], 2083/100, 0, 6249/625⟩
      ⟨[("s1", ⟨Side.Sell, 13/25, 1923/100⟩)], 2083/100, 0, 6249/625⟩ :=
    Step.place ⟨[], 2083/100, 0, 6249/625⟩ (1/2) ⟨Side.Sell, 13/25, 1923/100, 0⟩ "s1" hs1
      (by simp)
  have h4 : Step cfgEx ⟨[("s1", ⟨Side.Sell, 13/25, 1923/100⟩)], 2083/100, 0, 6249/625⟩
      ⟨[], 8/5, 0, 9999/500⟩ := by
    have hr : Step cfgEx ⟨[("s1", ⟨Side.Sell, 13/25, 1923/100⟩)], 2083/100, 0, 6249/625⟩
        ((update_active_orders ⟨[("s1", ⟨Side.Sell, 13/25, 1923/100⟩)], 2083/100, 0, 6249/625⟩
          []).2) :=
      Step.reconcile _ []
    have e : (update_active_orders ⟨[("s1", ⟨Side.Sell, 13/25, 1923/100⟩)], 2083/100, 0, 6249/625⟩
        ([] : List String)).2 = ⟨[], 8/5, 0, 9999/500⟩ := by
      simp [update_active_orders, reconcileGo]
      norm_num
    exact e ▸ hr
  have h5 : Step cfgEx ⟨[], 8/5, 0, 9999/500⟩
      ⟨[("s2", ⟨Side.Sell, 13/25, 1923/100⟩)], 8/5, 0, 9999/500⟩ :=
    Step.place ⟨[], 8/5, 0, 9999/500⟩ (1/2) ⟨Side.Sell, 13/25, 1923/100, 0⟩ "s2" hs2 (by simp)
  have h6 : Step cfgEx ⟨[("s2", ⟨Side.Sell, 13/25, 1923/100⟩)], 8/5, 0, 9999/500⟩
      ⟨[], -1763/100, 0, 37497/1250⟩ := by
    have hr : Step cfgEx ⟨[("s2", ⟨Side.Sell, 13/25, 1923/100⟩)], 8/5, 0, 9999/500⟩
        ((update_active_orders ⟨[("s2", ⟨Side.Sell, 13/25, 1923/100⟩)], 8/5, 0, 9999/500⟩
          []).2) :=
      Step.reconcile _ []
    have e : (update_active_orders ⟨[("s2", ⟨Side.Sell, 13/25, 1923/100⟩)], 8/5, 0, 9999/500⟩
        ([] : List String)).2 = ⟨[], -1763/100, 0, 37497/1250⟩ := by
      simp [update_active_orders, reconcileGo]
      norm_num
    exact e ▸ hr
  refine ⟨?_, by norm_num⟩
  exact Relation.ReflTransGen.head h1 (Relation.ReflTransGen.head h2
    (Relation.ReflTransGen.head h3 (Relation.ReflTransGen.head h4
      (Relation.ReflTransGen.head h5 (Relation.ReflTransGen.head h6
        Relation.ReflTransGen.refl)))))

/-- C7 (amended).  `position_yes` starts at `0`; placement, cancellation
and cancel-all leave it unchanged, and a reconcile preserves `0 ≤
position_yes` whenever every tracked order is Buy-side with non-negative
size.  Unconditional non-negativity fails: a reconcile in which a tracked
Sell order larger than the held position disappears makes `position_yes`
negative, and such states are reachable (see the counterexample). -/
theorem heldSize_nonneg_conditional (cfg : Config) (st st' : BotState)
    (hstep : Step cfg st st') (h0 : 0 ≤ st.position_yes)
    (hbuy : ∀ p ∈ st.active_orders, p.2.side = Side.Buy)
    (hsz : ∀ p ∈ st.active_orders, 0 ≤ p.2.size) :
    0 ≤ st'.position_yes := by
  cases hstep with
  | place mid o oid ho hfresh => exact h0
  | reconcile openIds =>
    rw [update_active_orders, reconcileGo_position]
    have hsum : (0:ℚ) ≤ ((st.active_orders.filter fun p => decide (p.1 ∉ openIds)).map
        (fun p => match p.2.side with
          | Side.Buy => p.2.size
          | Side.Sell => -p.2.size)).sum := by
      apply List.sum_nonneg
      intro x hx
      obtain ⟨p, hp, rfl⟩ := List.mem_map.1 hx
      have hpa : p ∈ st.active_orders := List.mem_of_mem_filter hp
      rw [hbuy p hpa]
      exact hsz p hpa
    linarith
  | cancel oid => exact h0
  | cancelAll => exact h0

/-- Witness for the amended C7: reconciling a book holding one Buy order
against an empty open-order report keeps the position non-negative. -/
theorem heldSize_nonneg_conditional_witness :
    (0:ℚ) ≤ ((update_active_orders ⟨[("b", ⟨Side.Buy, 1/2, 5⟩)], 0, 0, 0⟩ []).2).position_yes :=
  heldSize_nonneg_conditional cfgEx ⟨[("b", ⟨Side.Buy, 1/2, 5⟩)], 0, 0, 0⟩ _
    (Step.reconcile _ []) (by norm_num)
    (by
      intro p hp
      simp only [List.mem_singleton] at hp
      subst hp
      rfl)
    (by
      intro p hp
      simp only [List.mem_singleton] at hp
      subst hp
      norm_num)

/-! ### The position-refresh frame property (C10) -/

/-- C10 (frame property of the cycle's position refresh).
`get_current_positions` returns exactly the internally tracked pair —
it consults no external source — and consequently the `run_cycle` step
that assigns its first component back to `position_yes` is the identity
on the bot state. -/
theorem position_refresh_identity (st : BotState) :
    get_current_positions st = (st.position_yes, st.position_no) ∧
      run_cycle_position_refresh st = st :=
  ⟨rfl, rfl⟩

end PolyGrid
